import Mathlib

/-!
# Verification of the source-abstraction and selection pipeline of `ai-anvil-tui`

This development embeds (shallowly) the Rust modules `src/input/mod.rs`,
`src/input/file_system.rs`, `src/input/github.rs`, `src/output/mod.rs`,
`src/ui/mod.rs`, `src/ui/filters.rs` and `src/ui/source_files.rs` of the
repository and proves/refutes the specification claims about them.

Rust `String`/`&str` values are represented by Lean `String`; the Rust
standard-library string operations used by the code (`starts_with`,
`ends_with`, `split`, `trim_end_matches`, `trim_start_matches`, `find`,
`contains`, `to_lowercase`) are modelled by executable helper functions
defined below on `String.data : List Char`, so that the concatenation and
splitting behaviour is fully transparent to the proofs.
-/

namespace Anvil

/-! ## String-model helpers (semantics of the Rust `str` operations used) -/

/-- Boolean prefix test on character lists: `chStarts s p` holds when `p`
is an initial segment of `s`.  Models Rust `str::starts_with`. -/
def chStarts : List Char → List Char → Bool
  | _, [] => true
  | [], _ :: _ => false
  | a :: as, b :: bs => a == b && chStarts as bs

/-- Rust `s.starts_with(p)`. -/
def strStarts (s p : String) : Bool := chStarts s.data p.data

/-- Rust `s.ends_with(p)`. -/
def strEnds (s p : String) : Bool := chStarts s.data.reverse p.data.reverse

/-- Rust `s.contains(c)` for a `char` needle. -/
def strContainsChar (s : String) (c : Char) : Bool := s.data.any (fun a => a == c)

/-- Splitting a character list at every occurrence of `c`.
Models Rust `str::split(c)`: the empty string yields `[""]`, separators at
the ends yield empty fields. -/
def splitCh (c : Char) : List Char → List (List Char)
  | [] => [[]]
  | a :: rest =>
    match splitCh c rest with
    | [] => [[]]
    | comp :: comps => if a == c then [] :: comp :: comps else (a :: comp) :: comps

/-- Rust `s.split(c).collect::<Vec<_>>()`. -/
def strSplit (s : String) (c : Char) : List String := (splitCh c s.data).map String.mk

/-- Rust `s.trim_end_matches(c)` for a `char` pattern (strips every
trailing occurrence). -/
def trimEndChar (c : Char) (s : String) : String :=
  String.mk ((s.data.reverse.dropWhile (fun a => a == c)).reverse)

/-- Rust `s.trim_start_matches(c)` for a `char` pattern (strips every
leading occurrence). -/
def trimStartChar (c : Char) (s : String) : String :=
  String.mk (s.data.dropWhile (fun a => a == c))

/-- The part of `s` strictly before the first occurrence of `c`
(all of `s` if `c` does not occur).  Used to model
`s.split_at(s.find(c).unwrap())`. -/
def beforeChar (c : Char) (s : String) : String :=
  String.mk (s.data.takeWhile (fun a => a != c))

/-- The part of `s` strictly after the first occurrence of `c`
(empty if `c` does not occur). -/
def afterChar (c : Char) (s : String) : String :=
  String.mk ((s.data.dropWhile (fun a => a != c)).drop 1)

/-- ASCII lowercasing of one character, as Rust `char::to_lowercase` acts
on ASCII (the only case exercised by file extensions in this program). -/
def lowerCh (c : Char) : Char :=
  if 65 ≤ c.toNat ∧ c.toNat ≤ 90 then Char.ofNat (c.toNat + 32) else c

/-- Rust `str::to_lowercase` (ASCII fragment). -/
def strLower (s : String) : String := String.mk (s.data.map lowerCh)

/-! ## Data model (`src/input/mod.rs`) -/

/-- `TextSourceError` from `src/input/mod.rs`. -/
inductive TextSourceError where
  | invalidSource
  | ioError (msg : String)
  | gitHubError (msg : String)
  | networkError (msg : String)
  | pathNotFound (p : String)
  | permissionDenied (p : String)
  | rateLimitExceeded
  | repoNotFound
  | notTextFile (p : String)
deriving DecidableEq, Repr

/-- `SourceType` from `src/input/mod.rs`.  `PathBuf` is modelled as the
path string. -/
inductive SourceType where
  | fileSystem (basePath : String)
  | gitHub (owner : String) (repo : String) (branch : String)
deriving DecidableEq, Repr

/-- `SourceFile` from `src/input/mod.rs`. -/
structure SourceFile where
  path : String
  sourceType : SourceType
deriving DecidableEq, Repr

/-- `FilterConfig` from `src/input/mod.rs`.  The Rust `HashSet<String>`
fields are modelled as lists queried by `contains` (only membership is
ever used). -/
structure FilterConfig where
  additionalTextExtensions : List String
  additionalBinaryExtensions : List String
deriving DecidableEq, Repr

/-- `FilterConfig::default()` / `FilterConfig::new()`: both override sets
empty. -/
def FilterConfig.new : FilterConfig := ⟨[], []⟩

/-- The static `NON_TEXT_EXTENSIONS` table from `src/input/mod.rs`,
in source order. -/
def nonTextExtensions : List String :=
  ["exe", "dll", "so", "dylib", "bin", "app", "msi", "sys", "com", "o", "obj", "class",
   "zip", "rar", "7z", "tar", "gz", "bz2", "xz", "iso", "dmg", "img", "tgz",
   "jpg", "jpeg", "png", "gif", "bmp", "tiff", "webp", "ico", "svg", "eps", "raw", "cr2",
   "nef", "heic",
   "mp3", "wav", "ogg", "flac", "m4a", "wma", "aac", "mid", "midi", "aiff",
   "mp4", "avi", "mkv", "mov", "wmv", "flv", "webm", "m4v", "mpg", "mpeg", "3gp",
   "pdf", "doc", "docx", "xls", "xlsx", "ppt", "pptx", "pages", "numbers", "key", "indd",
   "psd", "ai",
   "db", "sqlite", "mdb", "accdb", "dbf", "dat", "mdf", "sdf",
   "ttf", "otf", "woff", "woff2", "eot",
   "pyc", "pyo", "pyd", "jar", "war", "deb", "rpm", "lib", "a", "pak", "cache", "idx", "mo",
   "gmo", "pdb"]

/-- `FilterConfig::is_text_extension` from `src/input/mod.rs`:
binary override, then text override, then the built-in table. -/
def FilterConfig.isTextExtension (cfg : FilterConfig) (ext : String) : Bool :=
  if cfg.additionalBinaryExtensions.contains ext then false
  else if cfg.additionalTextExtensions.contains ext then true
  else !(nonTextExtensions.contains ext)

/-! ## `get_extension` (`src/input/file_system.rs`)

`get_extension(path_str)` is `Path::new(path_str).extension()` followed by
`to_lowercase`.  `Path::extension` takes the file name (the last
`/`-separated component, `None` for `"."`/`".."` components) and returns
the portion after its final `.` provided the portion before that `.` is
nonempty.  The model below covers POSIX-style relative paths, the only
paths this program feeds it. -/

/-- `Path::file_name()` for a POSIX-style path string. -/
def pathFileName (p : String) : Option String :=
  match ((splitCh '/' p.data).filter (fun comp => !(comp.isEmpty || comp == ['.']))).getLast? with
  | none => none
  | some comp => if comp == ['.', '.'] then none else some (String.mk comp)

/-- The extension of a bare file name per `Path::extension`:
the part after the last `.`, provided the part before it is nonempty. -/
def fileNameExtension (f : String) : Option String :=
  let parts := splitCh '.' f.data
  if parts.length < 2 then none
  else
    let stem := List.intercalate ['.'] parts.dropLast
    if stem.isEmpty then none else some (String.mk (parts.getLastD []))

/-- `get_extension` from `src/input/file_system.rs`: the (lowercased)
extension of the file name of `path_str`, if any. -/
def getExtension (pathStr : String) : Option String :=
  ((pathFileName pathStr).bind fileNameExtension).map strLower

/-! ## Ignore-rule matcher (`GitIgnoreRules`, `src/input/file_system.rs`) -/

/-- `GitIgnoreRules::match_pattern(rel_path, pat)`. -/
def matchPattern (relPath : String) (pat : String) : Bool :=
  let trimmedPat := trimEndChar '/' pat
  if strStarts pat "/" then
    let patNoSlash := trimStartChar '/' trimmedPat
    if relPath == patNoSlash then true
    else if strStarts relPath (patNoSlash ++ "/") then true
    else if strStarts patNoSlash "*" then
      strEnds relPath (trimStartChar '*' patNoSlash)
    else false
  else if strContainsChar pat '*' then
    strStarts relPath (beforeChar '*' pat) && strEnds relPath (afterChar '*' pat)
  else
    relPath == trimmedPat || strStarts relPath (trimmedPat ++ "/")

/-- `GitIgnoreRules::is_ignored(rel_path)`: some pattern of the ruleset
matches. -/
def isIgnored (patterns : List String) (relPath : String) : Bool :=
  patterns.any (fun p => matchPattern relPath p)

/-! ## Filesystem traversal (`FileSystemSource::collect_files`)

The directory tree reachable from the source root is modelled as an
`FsNode`; a directory holds its entries as `(name, node)` pairs in
enumeration order.  `collect_files` receives the relative path of the
directory being listed (empty for the root) and accumulates emitted
relative file paths; I/O errors are outside this model (the claims below
quantify over successful traversals). -/

inductive FsNode where
  | file : FsNode
  | dir (entries : List (String × FsNode)) : FsNode
deriving Repr

/-- The relative path of an entry named `name` inside the directory whose
own relative path is `pre` (`""` for the source root):
`path.strip_prefix(&self.base_path)` of the entry's path. -/
def relPath (pre name : String) : String :=
  if pre = "" then name else pre ++ "/" ++ name

/-- The text-vs-binary classification the traversals apply to a path.
`collect_files` runs `if let Some(ext) = get_extension(&rel_path)
{ if !filter.is_text_extension(ext) { continue; } }` (and the GitHub
index does the same), so a path is kept by this check exactly when it
has no extension or its extension is classified text. -/
def isTextFile (cfg : FilterConfig) (pathStr : String) : Bool :=
  match getExtension pathStr with
  | some ext => cfg.isTextExtension ext
  | none => true

/-- `FileSystemSource::collect_files` from `src/input/file_system.rs`,
restricted to its filtering/recursion logic.  For each entry, in order:
skip names starting with `.` or ending with `~`; skip relative paths
matched by the ignore ruleset; skip paths whose extension is classified
binary (`!(isTextFile ...)` is the `if let Some(ext) ... continue`
construct of the source); emit files, recurse into directories. -/
def collectFiles (rules : List String) (cfg : FilterConfig) :
    String → List (String × FsNode) → List String
  | _, [] => []
  | pre, (name, node) :: rest =>
    if strStarts name "." then collectFiles rules cfg pre rest
    else if strEnds name "~" then collectFiles rules cfg pre rest
    else if isIgnored rules (relPath pre name) then collectFiles rules cfg pre rest
    else if !(isTextFile cfg (relPath pre name)) then collectFiles rules cfg pre rest
    else
      match node with
      | .file => relPath pre name :: collectFiles rules cfg pre rest
      | .dir kids =>
        collectFiles rules cfg (relPath pre name) kids ++ collectFiles rules cfg pre rest
termination_by _ l => sizeOf l

/-! ## UTF-8 validation (`String::from_utf8`)

File bytes are modelled as `List Nat` (each `< 256`).  `utf8Decode`
implements RFC 3629 UTF-8 decoding to scalar values, rejecting stray or
missing continuation bytes, overlong encodings, surrogates and
code points above `0x10FFFF` — the acceptance condition of Rust
`String::from_utf8`. -/

/-- Is `b` a UTF-8 continuation byte (`10xxxxxx`)? -/
def isCont (b : Nat) : Bool := 128 ≤ b && b < 192

/-- Decode a UTF-8 byte sequence to its scalar values, or fail. -/
def utf8Decode : List Nat → Option (List Nat)
  | [] => some []
  | b :: rest =>
    if b < 128 then
      (utf8Decode rest).map (fun cs => b :: cs)
    else if b < 194 then
      none
    else if b < 224 then
      match rest with
      | b1 :: rest2 =>
        if isCont b1 then
          (utf8Decode rest2).map (fun cs => ((b - 192) * 64 + (b1 - 128)) :: cs)
        else none
      | [] => none
    else if b < 240 then
      match rest with
      | b1 :: b2 :: rest3 =>
        if isCont b1 && isCont b2 then
          let cp := (b - 224) * 4096 + (b1 - 128) * 64 + (b2 - 128)
          if cp < 2048 then none
          else if 55296 ≤ cp ∧ cp ≤ 57343 then none
          else (utf8Decode rest3).map (fun cs => cp :: cs)
        else none
      | _ => none
    else if b < 245 then
      match rest with
      | b1 :: b2 :: b3 :: rest4 =>
        if isCont b1 && isCont b2 && isCont b3 then
          let cp := (b - 240) * 262144 + (b1 - 128) * 4096 + (b2 - 128) * 64 + (b3 - 128)
          if cp < 65536 then none
          else if 1114111 < cp then none
          else (utf8Decode rest4).map (fun cs => cp :: cs)
        else none
      | _ => none
    else none

/-- Rust `String::from_utf8(bytes)` as an `Option`. -/
def bytesToString (bs : List Nat) : Option String :=
  (utf8Decode bs).map (fun cps => String.mk (cps.map Char.ofNat))

/-! ## Content fetch (`get_file_content` of both backends)

The ambient world is explicit: a disk (an association list from absolute
path to raw bytes; an absent key models a nonexistent file) for the
filesystem backend, and an HTTP responder for the GitHub backend.  Each
fetch also returns the list of I/O actions it performed, so that
"rejects without performing any I/O" is a statement of the model. -/

inductive IoAction where
  | fsProbe (p : String)
  | fsRead (p : String)
  | httpGet (url : String)
deriving DecidableEq, Repr

/-- `PathBuf::join` for the POSIX paths this program uses. -/
def pathJoin (base : String) (rel : String) : String :=
  if base = "" then rel else base ++ "/" ++ rel

/-- `FileSystemSource::get_file_content` (`src/input/file_system.rs`):
reject non-filesystem origins, probe existence, read bytes, validate
UTF-8.  (Read permission errors are outside the disk model.) -/
def fsGetFileContent (disk : List (String × List Nat)) (sf : SourceFile) :
    (TextSourceError ⊕ String) × List IoAction :=
  match sf.sourceType with
  | .fileSystem basePath =>
    let fullPath := pathJoin basePath sf.path
    match disk.lookup fullPath with
    | none => (.inl (.pathNotFound fullPath), [.fsProbe fullPath])
    | some bytes =>
      match bytesToString bytes with
      | none => (.inl (.notTextFile fullPath), [.fsProbe fullPath, .fsRead fullPath])
      | some s => (.inr s, [.fsProbe fullPath, .fsRead fullPath])
  | .gitHub _ _ _ => (.inl .invalidSource, [])

/-- The outcome of one HTTP round-trip: a status/body response, or a
transport failure. -/
inductive HttpOutcome where
  | response (status : Nat) (body : List Nat)
  | netFail (msg : String)

/-- `GitHubSource::get_file_content` (`src/input/github.rs`):
reject non-GitHub origins, rebuild the absolute repo path (prefixing the
configured subpath), fetch from the raw-content endpoint and map the
status: success → UTF-8 validation, 404 → `PathNotFound`,
403 → `RateLimitExceeded`, otherwise `GitHubError`. -/
def ghGetFileContent (http : String → HttpOutcome) (subpath : Option String)
    (sf : SourceFile) : (TextSourceError ⊕ String) × List IoAction :=
  match sf.sourceType with
  | .gitHub owner repo branch =>
    let filePath :=
      match subpath with
      | some sp => sp ++ "/" ++ sf.path
      | none => sf.path
    let rawUrl :=
      "https://raw.githubusercontent.com/" ++ owner ++ "/" ++ repo ++ "/" ++ branch
        ++ "/" ++ filePath
    match http rawUrl with
    | .netFail m => (.inl (.networkError m), [.httpGet rawUrl])
    | .response status body =>
      if 200 ≤ status ∧ status ≤ 299 then
        match bytesToString body with
        | none => (.inl (.notTextFile filePath), [.httpGet rawUrl])
        | some s => (.inr s, [.httpGet rawUrl])
      else if status = 404 then (.inl (.pathNotFound sf.path), [.httpGet rawUrl])
      else if status = 403 then (.inl .rateLimitExceeded, [.httpGet rawUrl])
      else (.inl (.gitHubError (toString status)), [.httpGet rawUrl])
  | .fileSystem _ => (.inl .invalidSource, [])

/-! ## Merge engine (`write_merged`, `src/output/mod.rs`)

`write_merged` iterates over the selected `(path, SourceFile)` map, calls
`App::reload_file_content` (which forwards to the active backend's
`get_file_content`) and appends a delimited block for each fetch that
returned `Ok`; any fetch that returned `Err` — of whatever kind —
contributes nothing, by the `if let Ok(content) = ...` in the loop body.
The `HashMap` iteration order is unspecified; the map is modelled as a
list traversed in list order.  Writing the result to the file/clipboard
destinations is an external side effect, outside this model. -/

/-- The delimited block emitted for one included file. -/
def fileBlock (path content : String) : String :=
  "--- START FILE: " ++ path ++ " ---\n" ++ content
    ++ "\n--- END FILE: " ++ path ++ " ---\n\n"

/-- The merged-string accumulation loop of `write_merged`. -/
def writeMerged (fetch : SourceFile → (TextSourceError ⊕ String))
    (filesMap : List (String × SourceFile)) : String :=
  filesMap.foldl
    (fun merged pr =>
      match fetch pr.2 with
      | .inr content => merged ++ fileBlock pr.1 content
      | .inl _ => merged)
    ""

/-- Concatenation of a list of strings (for stating what `writeMerged`
computes). -/
def concatAll (l : List String) : String := l.foldr (fun a b => a ++ b) ""

/-- The blocks of the files whose fetch succeeded, in traversal order. -/
def successBlocks (fetch : SourceFile → (TextSourceError ⊕ String))
    (filesMap : List (String × SourceFile)) : List String :=
  filesMap.filterMap
    (fun pr =>
      match fetch pr.2 with
      | .inr content => some (fileBlock pr.1 content)
      | .inl _ => none)

/-! ## GitHub URL parsing (`GitHubSource::parse_github_url`)

The `url` crate's `Url::parse` is external; its output interface is
modelled by `UrlParts` (scheme, host, and the `/`-separated path
segments, `none` when the URL cannot be a base).  `urlParse` reproduces
`Url::parse` on the plain `scheme://host/path` URLs exercised here: a
URL with an empty path normalizes to path `/`, whose segment list is
`[""]`. -/

structure UrlParts where
  scheme : String
  host : Option String
  pathSegs : Option (List String)
deriving DecidableEq, Repr

/-- Split a character list at the first occurrence of `"://"`. -/
def splitSchemeSep : List Char → Option (List Char × List Char)
  | [] => none
  | a :: rest =>
    if chStarts (a :: rest) [':', '/', '/'] then some ([], rest.drop 2)
    else (splitSchemeSep rest).map (fun pr => (a :: pr.1, pr.2))

/-- `Url::parse` on plain `scheme://host[/path]` URLs (no userinfo, port,
query or fragment): scheme before the first `"://"`, host up to the next
`/`, then the `/`-separated path segments.  A URL with an empty path
normalizes to path `/`, whose segment list is `[""]`. -/
def urlParse (s : String) : Option UrlParts :=
  match splitSchemeSep s.data with
  | none => none
  | some (sch, rest) =>
    match splitCh '/' rest with
    | [] => none
    | h :: segs =>
      some ⟨String.mk sch, if h = [] then none else some (String.mk h),
            some (if segs = [] then [""] else segs.map String.mk)⟩

/-- Rust `s.trim_end_matches(".git")`: strip every trailing `".git"`. -/
def trimGitSuffix (s : String) : String := String.mk (go s.data.reverse).reverse
where
  go : List Char → List Char
    | 't' :: 'i' :: 'g' :: '.' :: rest => go rest
    | l => l

/-- `GitHubSource::parse_github_url` (`src/input/github.rs`) after
`Url::parse` has succeeded. -/
def parseGithubUrlParts (u : UrlParts) :
    TextSourceError ⊕ (String × String × String × Option String) :=
  if u.scheme ≠ "https" ∨ u.host ≠ some "github.com" then .inl .invalidSource
  else
    match u.pathSegs with
    | none => .inl .invalidSource
    | some segments =>
      if segments.length < 2 then .inl .invalidSource
      else
        let owner := segments.getD 0 ""
        let repository := trimGitSuffix (segments.getD 1 "")
        match segments.drop 2 with
        | "tree" :: b :: rest =>
          .inr (owner, repository, b,
                if rest = [] then none else some (String.intercalate "/" rest))
        | _ => .inr (owner, repository, "main", none)

/-- `GitHubSource::parse_github_url` on a raw URL string:
`Url::parse` failure maps to `InvalidSource`. -/
def parseGithubUrl (s : String) :
    TextSourceError ⊕ (String × String × String × Option String) :=
  match urlParse s with
  | none => .inl .invalidSource
  | some u => parseGithubUrlParts u

/-! ## Selection layer (`src/ui/filters.rs`, `src/ui/source_files.rs`)

The `App` selection-relevant fields: the loaded index, the selected
file-path set, the selected extension-group set, and the two panels'
item lists.  `HashSet<String>` is modelled as `Finset String`. -/

structure AppSel where
  loadedFiles : List SourceFile
  selectedExtensions : Finset String
  selectedFiles : Finset String
  filterItems : List String
  fileItems : List String

/-- The grouping "extension" the selection layer derives from a path:
`f.path.split('.').last()` in `FiltersPanel::init_values` and both
`toggle_selected` functions.  Rust `split` always yields at least one
piece, so `last()` is always `Some`. -/
def uiExtOf (p : String) : String := (strSplit p '.').getLastD ""

/-- Insertion into a sorted duplicate-free list of strings; folding it
over the paths' extensions reproduces iterating a `BTreeSet<String>`. -/
def insortNub (x : String) : List String → List String
  | [] => [x]
  | y :: ys => if x = y then y :: ys else if x < y then x :: y :: ys else y :: insortNub x ys

/-- Sorted deduplicated list of a list of strings (`BTreeSet` contents in
iteration order). -/
def sortedNub (l : List String) : List String := l.foldr insortNub []

/-- Insertion sort step for `Vec::sort` on strings. -/
def insortStr (x : String) : List String → List String
  | [] => [x]
  | y :: ys => if x ≤ y then x :: y :: ys else y :: insortStr x ys

/-- `Vec::sort` on strings (stability is irrelevant here). -/
def sortStrings (l : List String) : List String := l.foldr insortStr []

/-- `FiltersPanel::init_values` (`src/ui/filters.rs`): rebuild the item
list as `"*"` followed by the sorted set of extensions of the loaded
files, then *insert* every item into the selected-extension set and every
loaded path into the selected-file set.  Nothing is ever removed from
either set. -/
def filtersInitValues (files : List SourceFile) (st : AppSel) : AppSel :=
  let items := "*" :: sortedNub (files.map (fun f => uiExtOf f.path))
  { st with
    filterItems := items
    selectedExtensions := items.foldl (fun s it => insert it s) st.selectedExtensions
    selectedFiles := files.foldl (fun s f => insert f.path s) st.selectedFiles }

/-- `SourceFilesPanel::init_values` (`src/ui/source_files.rs`): sorted
path list as items, and every loaded path inserted into the
selected-file set (the token-status bookkeeping is omitted). -/
def sourceFilesInitValues (files : List SourceFile) (st : AppSel) : AppSel :=
  { st with
    fileItems := sortStrings (files.map (fun f => f.path))
    selectedFiles := files.foldl (fun s f => insert f.path s) st.selectedFiles }

/-- `App::reload_files_immediate` (`src/ui/mod.rs`), selection part:
replace `loaded_files` by the fresh index (cleared when source creation
or indexing failed, both collapsed into `none` here), then run both
panels' `init_values`. -/
def reloadFilesImmediate (indexResult : Option (List SourceFile)) (st : AppSel) : AppSel :=
  let files := match indexResult with
    | some fs => fs
    | none => []
  let st1 := { st with loadedFiles := files }
  sourceFilesInitValues files (filtersInitValues files st1)

/-! ## Orchestration controller (`src/ui/mod.rs` and the driving loop)

The `F1`/`F2` intent handlers are translated from `App::update`
(`src/ui/mod.rs`, the `KeyCode::F(1)`/`F(2)` arms): an intent flag is set
only when `processing` is false.  The polling loop that consumes the
flags is not present under `src/` (the checked-in `main.rs` is an
unrelated demo), so the tick rule is *modelled from the spec*, §4.7:
once per tick, if `reload_requested && !busy` then set `busy`, clear
`reload_requested` and start the reload; else the same for merge; the
operation runs to completion and then clears `busy`
(`reload_files_immediate` / `merge_immediate` clear their own flag first,
as in the source).  Completion is a separate `opDone` event so that
"while the first is still busy" is expressible. -/

inductive OpKind where
  | reload
  | merge
deriving DecidableEq, Repr

structure CtrlState where
  reloadNeeded : Bool
  mergeNeeded : Bool
  processing : Bool
  running : Option OpKind
  execLog : List OpKind
deriving DecidableEq, Repr

inductive CtrlEvent where
  | keyF1
  | keyF2
  | tick
  | opDone
deriving DecidableEq, Repr

/-- The idle controller: no intents, not busy, nothing run yet. -/
def idleCtrl : CtrlState := ⟨false, false, false, none, []⟩

/-- One controller step.  `keyF1`/`keyF2` are from `App::update`;
`tick`/`opDone` are modelled from spec §4.7 as described above. -/
def ctrlStep (s : CtrlState) (e : CtrlEvent) : CtrlState :=
  match e with
  | .keyF1 => if s.processing then s else { s with reloadNeeded := true }
  | .keyF2 => if s.processing then s else { s with mergeNeeded := true }
  | .tick =>
    if s.processing then s
    else if s.reloadNeeded then
      { s with processing := true, reloadNeeded := false,
               running := some .reload, execLog := s.execLog ++ [.reload] }
    else if s.mergeNeeded then
      { s with processing := true, mergeNeeded := false,
               running := some .merge, execLog := s.execLog ++ [.merge] }
    else s
  | .opDone =>
    if s.processing then { s with processing := false, running := none } else s

/-- Run a sequence of controller events. -/
def ctrlRun (s : CtrlState) (es : List CtrlEvent) : CtrlState := es.foldl ctrlStep s

/-! ## Derived definitions used by the statements -/

/-- A clean path component: does not start with `.` and does not end
with `~`. -/
def compOk (comp : List Char) : Bool :=
  !(chStarts comp ['.']) && !(chStarts comp.reverse ['~'])

/-- Well-formedness of a modelled directory tree: no entry name contains
a path separator (true of every real directory entry). -/
def noSlashNames : List (String × FsNode) → Bool
  | [] => true
  | (name, node) :: rest =>
    name.data.all (fun a => a != '/') &&
    (match node with
     | .file => true
     | .dir kids => noSlashNames kids) &&
    noSlashNames rest
termination_by l => sizeOf l

/-! ### Concrete fixtures for the counterexamples and round-trip claims -/

/-- Disk for the merge round-trip: `a.txt` holds the byte `0x41`
(`"A"`), `b.bin` holds the byte `0xFF`, which is not valid UTF-8. -/
def mergeDisk : List (String × List Nat) := [("base/a.txt", [65]), ("base/b.bin", [255])]

def sfATxt : SourceFile := ⟨"a.txt", .fileSystem "base"⟩

def sfBBin : SourceFile := ⟨"b.bin", .fileSystem "base"⟩

/-- Backend fetch over `mergeDisk`. -/
def mergeFetch (sf : SourceFile) : TextSourceError ⊕ String :=
  (fsGetFileContent mergeDisk sf).1

/-- Disk for the merge-abort counterexample: only `a.txt` exists. -/
def abortDisk : List (String × List Nat) := [("base/a.txt", [65])]

def sfMissing : SourceFile := ⟨"missing.txt", .fileSystem "base"⟩

/-- Backend fetch over `abortDisk`. -/
def abortFetch (sf : SourceFile) : TextSourceError ⊕ String :=
  (fsGetFileContent abortDisk sf).1

/-- A small directory tree exercising every skip rule: a normal source
directory also holding a hidden file and a backup file, a hidden
directory, a binary-extension file, and an extension-less file. -/
def demoTree : List (String × FsNode) :=
  [("src", .dir [("main.rs", .file), (".hidden", .file), ("notes~", .file)]),
   (".git", .dir [("config", .file)]),
   ("b.png", .file),
   ("README", .file)]

/-- A prior selection state holding a path and an extension that do not
occur in the fresh index. -/
def stalePrior : AppSel :=
  { loadedFiles := []
    selectedExtensions := {"zzz"}
    selectedFiles := {"gone.txt"}
    filterItems := []
    fileItems := [] }

/-! ## Helper lemmas -/

theorem writeMerged_foldl (fetch : SourceFile → (TextSourceError ⊕ String))
    (filesMap : List (String × SourceFile)) (acc : String) :
    filesMap.foldl
      (fun merged pr =>
        match fetch pr.2 with
        | .inr content => merged ++ fileBlock pr.1 content
        | .inl _ => merged)
      acc = acc ++ concatAll (successBlocks fetch filesMap) := by
  induction filesMap generalizing acc with
  | nil => simp [concatAll, successBlocks, String.append_empty]
  | cons pr rest ih =>
    cases h : fetch pr.2 with
    | inl e =>
      simp only [List.foldl_cons, h, successBlocks, List.filterMap_cons, concatAll]
      rw [ih]
      simp [successBlocks, concatAll, h]
    | inr c =>
      simp only [List.foldl_cons, h, successBlocks, List.filterMap_cons, concatAll]
      rw [ih]
      simp [successBlocks, concatAll, h, String.append_assoc]

theorem mem_foldl_insert_path (files : List SourceFile) (s : Finset String) (x : String) :
    x ∈ files.foldl (fun s f => insert f.path s) s ↔
      x ∈ s ∨ x ∈ files.map SourceFile.path := by
  induction files generalizing s with
  | nil => simp
  | cons f rest ih => simp [ih, Finset.mem_insert]; tauto

theorem mem_foldl_insert_str (items : List String) (s : Finset String) (x : String) :
    x ∈ items.foldl (fun s it => insert it s) s ↔ x ∈ s ∨ x ∈ items := by
  induction items generalizing s with
  | nil => simp
  | cons it rest ih => simp [ih, Finset.mem_insert]; tauto

theorem mem_insortNub (x y : String) (l : List String) :
    y ∈ insortNub x l ↔ y = x ∨ y ∈ l := by
  induction l with
  | nil => simp [insortNub]
  | cons z zs ih =>
    simp only [insortNub]
    by_cases h1 : x = z
    · subst h1; simp
    · by_cases h2 : x < z
      · simp [h1, h2]
      · simp [h1, h2, ih]; tauto

theorem mem_sortedNub (x : String) (l : List String) :
    x ∈ sortedNub l ↔ x ∈ l := by
  induction l with
  | nil => simp [sortedNub]
  | cons z zs ih =>
    simp only [sortedNub, List.foldr_cons]
    rw [show zs.foldr insortNub [] = sortedNub zs from rfl]
    simp [mem_insortNub, ih]

theorem splitCh_ne_nil (c : Char) (l : List Char) : splitCh c l ≠ [] := by
  cases l with
  | nil => simp [splitCh]
  | cons a rest =>
    simp only [splitCh]
    cases h : splitCh c rest with
    | nil => simp
    | cons comp comps =>
      by_cases hc : a == c <;> simp [hc]

theorem splitCh_of_not_mem (c : Char) (l : List Char) (h : ∀ a ∈ l, a ≠ c) :
    splitCh c l = [l] := by
  induction l with
  | nil => rfl
  | cons a rest ih =>
    have ha : a ≠ c := h a (List.mem_cons_self a rest)
    have hr : splitCh c rest = [rest] := ih (fun b hb => h b (List.mem_cons_of_mem a hb))
    simp [splitCh, hr, ha]

theorem splitCh_append_sep (c : Char) (pre name : List Char)
    (h : ∀ a ∈ name, a ≠ c) :
    splitCh c (pre ++ c :: name) = splitCh c pre ++ [name] := by
  induction pre with
  | nil =>
    simp only [List.nil_append, splitCh]
    rw [splitCh_of_not_mem c name h]
    simp [splitCh]
  | cons x pre' ih =>
    simp only [List.cons_append, splitCh, List.append_eq]
    rw [ih]
    cases hp : splitCh c pre' with
    | nil => exact absurd hp (splitCh_ne_nil c pre')
    | cons hcomp hcomps =>
      by_cases hx : x == c <;> simp [splitCh, hx, hp]

theorem compOk_of_checks (name : String)
    (hdot : strStarts name "." = false) (htil : strEnds name "~" = false) :
    compOk name.data = true := by
  have hd : chStarts name.data ['.'] = false := hdot
  have ht : chStarts name.data.reverse ['~'] = false := htil
  simp [compOk, hd, ht]

theorem rel_comps_ok (pre name : String)
    (hpre : pre = "" ∨ ∀ comp ∈ splitCh '/' pre.data, compOk comp = true)
    (hslash : ∀ a ∈ name.data, a ≠ '/')
    (hdot : strStarts name "." = false) (htil : strEnds name "~" = false) :
    ∀ comp ∈ splitCh '/' (relPath pre name).data, compOk comp = true := by
  have hname := compOk_of_checks name hdot htil
  unfold relPath
  by_cases hp : pre = ""
  · rw [if_pos hp, splitCh_of_not_mem '/' name.data hslash]
    simpa using hname
  · rw [if_neg hp]
    have hdata : (pre ++ "/" ++ name).data = pre.data ++ '/' :: name.data := by
      rw [String.data_append, String.data_append]
      simp [show ("/").data = ['/'] from rfl]
    rw [hdata, splitCh_append_sep '/' pre.data name.data hslash]
    intro comp hc
    rcases List.mem_append.mp hc with hc | hc
    · rcases hpre with hpre | hpre
      · exact absurd hpre hp
      · exact hpre comp hc
    · simp only [List.mem_singleton] at hc
      subst hc
      exact hname

/-! Branch-wise unfolding equations for the well-founded definitions
`collectFiles` and `noSlashNames`. -/

theorem collectFiles_nil (rules : List String) (cfg : FilterConfig) (pre : String) :
    collectFiles rules cfg pre [] = [] := by
  rw [collectFiles.eq_def]

theorem collectFiles_skip_dot (rules : List String) (cfg : FilterConfig)
    (pre name : String) (node : FsNode) (rest : List (String × FsNode))
    (h : strStarts name "." = true) :
    collectFiles rules cfg pre ((name, node) :: rest) = collectFiles rules cfg pre rest := by
  rw [collectFiles.eq_def]; simp [h]

theorem collectFiles_skip_tilde (rules : List String) (cfg : FilterConfig)
    (pre name : String) (node : FsNode) (rest : List (String × FsNode))
    (h1 : strStarts name "." = false) (h2 : strEnds name "~" = true) :
    collectFiles rules cfg pre ((name, node) :: rest) = collectFiles rules cfg pre rest := by
  rw [collectFiles.eq_def]; simp [h1, h2]

theorem collectFiles_skip_ignored (rules : List String) (cfg : FilterConfig)
    (pre name : String) (node : FsNode) (rest : List (String × FsNode))
    (h1 : strStarts name "." = false) (h2 : strEnds name "~" = false)
    (h3 : isIgnored rules (relPath pre name) = true) :
    collectFiles rules cfg pre ((name, node) :: rest) = collectFiles rules cfg pre rest := by
  rw [collectFiles.eq_def]; simp [h1, h2, h3]

theorem collectFiles_skip_ext (rules : List String) (cfg : FilterConfig)
    (pre name : String) (node : FsNode) (rest : List (String × FsNode))
    (h1 : strStarts name "." = false) (h2 : strEnds name "~" = false)
    (h3 : isIgnored rules (relPath pre name) = false)
    (h4 : isTextFile cfg (relPath pre name) = false) :
    collectFiles rules cfg pre ((name, node) :: rest) = collectFiles rules cfg pre rest := by
  rw [collectFiles.eq_def]; simp [h1, h2, h3, h4]

theorem collectFiles_emit_file (rules : List String) (cfg : FilterConfig)
    (pre name : String) (rest : List (String × FsNode))
    (h1 : strStarts name "." = false) (h2 : strEnds name "~" = false)
    (h3 : isIgnored rules (relPath pre name) = false)
    (h4 : isTextFile cfg (relPath pre name) = true) :
    collectFiles rules cfg pre ((name, FsNode.file) :: rest)
      = relPath pre name :: collectFiles rules cfg pre rest := by
  rw [collectFiles.eq_def]; simp [h1, h2, h3, h4]

theorem collectFiles_enter_dir (rules : List String) (cfg : FilterConfig)
    (pre name : String) (kids rest : List (String × FsNode))
    (h1 : strStarts name "." = false) (h2 : strEnds name "~" = false)
    (h3 : isIgnored rules (relPath pre name) = false)
    (h4 : isTextFile cfg (relPath pre name) = true) :
    collectFiles rules cfg pre ((name, FsNode.dir kids) :: rest)
      = collectFiles rules cfg (relPath pre name) kids ++ collectFiles rules cfg pre rest := by
  rw [collectFiles.eq_def]; simp [h1, h2, h3, h4]

theorem noSlashNames_nil : noSlashNames [] = true := by
  rw [noSlashNames.eq_def]

theorem noSlashNames_cons (name : String) (node : FsNode) (rest : List (String × FsNode)) :
    noSlashNames ((name, node) :: rest)
      = (name.data.all (fun a => a != '/') &&
         (match node with
          | .file => true
          | .dir kids => noSlashNames kids) &&
         noSlashNames rest) := by
  rw [noSlashNames.eq_def]

theorem collectFiles_comps_clean (rules : List String) (cfg : FilterConfig) :
    ∀ (pre : String) (entries : List (String × FsNode)),
      noSlashNames entries = true →
      (pre = "" ∨ ∀ comp ∈ splitCh '/' pre.data, compOk comp = true) →
      ∀ p ∈ collectFiles rules cfg pre entries,
        ∀ comp ∈ splitCh '/' p.data, compOk comp = true := by
  intro pre entries
  induction pre, entries using collectFiles.induct rules cfg with
  | case1 x =>
    intro _ _ p hp
    rw [collectFiles_nil] at hp
    cases hp
  | case2 pre name node rest hdot ih =>
    intro hn hp
    simp only [noSlashNames_cons, Bool.and_eq_true] at hn
    rw [collectFiles_skip_dot rules cfg pre name node rest hdot]
    exact ih hn.2 hp
  | case3 pre name node rest hdot htil ih =>
    intro hn hp
    simp only [noSlashNames_cons, Bool.and_eq_true] at hn
    rw [collectFiles_skip_tilde rules cfg pre name node rest (by simpa using hdot) htil]
    exact ih hn.2 hp
  | case4 pre name node rest hdot htil hign ih =>
    intro hn hp
    simp only [noSlashNames_cons, Bool.and_eq_true] at hn
    rw [collectFiles_skip_ignored rules cfg pre name node rest
      (by simpa using hdot) (by simpa using htil) hign]
    exact ih hn.2 hp
  | case5 pre name node rest hdot htil hign hext ih =>
    intro hn hp
    simp only [noSlashNames_cons, Bool.and_eq_true] at hn
    rw [collectFiles_skip_ext rules cfg pre name node rest
      (by simpa using hdot) (by simpa using htil) (by simpa using hign) (by simpa using hext)]
    exact ih hn.2 hp
  | case6 pre name rest hdot htil hign hext ih =>
    intro hn hp
    simp only [noSlashNames_cons, Bool.and_eq_true] at hn
    rw [collectFiles_emit_file rules cfg pre name rest
      (by simpa using hdot) (by simpa using htil) (by simpa using hign) (by simpa using hext)]
    intro p hmem
    rcases List.mem_cons.mp hmem with hmem | hmem
    · subst hmem
      exact rel_comps_ok pre name hp
        (fun a ha => by simpa using List.all_eq_true.mp hn.1.1 a ha)
        (by simpa using hdot) (by simpa using htil)
    · exact ih hn.2 hp p hmem
  | case7 pre name rest hdot htil hign hext kids ih1 ih2 =>
    intro hn hp
    simp only [noSlashNames_cons, Bool.and_eq_true] at hn
    rw [collectFiles_enter_dir rules cfg pre name kids rest
      (by simpa using hdot) (by simpa using htil) (by simpa using hign) (by simpa using hext)]
    intro p hmem
    rcases List.mem_append.mp hmem with hmem | hmem
    · refine ih1 hn.1.2 (Or.inr ?_) p hmem
      exact rel_comps_ok pre name hp
        (fun a ha => by simpa using List.all_eq_true.mp hn.1.1 a ha)
        (by simpa using hdot) (by simpa using htil)
    · exact ih2 hn.2 hp p hmem

/-! ## Claims -/

/-- C1 (counterexample): the claim says that a per-file fetch error other
than `NotTextFile` aborts the whole merge and surfaces that error.  On
the disk holding only `base/a.txt`, fetching `missing.txt` fails with
`PathNotFound` — not `NotTextFile` — yet `write_merged` still returns the
partial merged string consisting of the `a.txt` block alone (in either
traversal order of the map), instead of aborting with the error. -/
theorem c1_counterexample :
    abortFetch sfMissing = .inl (.pathNotFound "base/missing.txt") ∧
    writeMerged abortFetch [("a.txt", sfATxt), ("missing.txt", sfMissing)]
      = "--- START FILE: a.txt ---\nA\n--- END FILE: a.txt ---\n\n" ∧
    writeMerged abortFetch [("missing.txt", sfMissing), ("a.txt", sfATxt)]
      = "--- START FILE: a.txt ---\nA\n--- END FILE: a.txt ---\n\n" := by
  decide

/-- C1 (amended): during a merge, *every* per-file fetch failure —
`NotTextFile` or any other error — causes that file to be silently
omitted while the merge continues; the merge never aborts on a per-file
fetch error, and the result is exactly the concatenation of the blocks
of the successfully fetched files, in traversal order. -/
theorem c1_merge_error_policy (fetch : SourceFile → (TextSourceError ⊕ String))
    (filesMap : List (String × SourceFile)) :
    writeMerged fetch filesMap = concatAll (successBlocks fetch filesMap) := by
  unfold writeMerged
  rw [writeMerged_foldl]
  simp

/-- C3 (counterexample): the claim says the unanchored literal pattern
`node_modules` ignores `a/node_modules/x`; `match_pattern` (and hence
`is_ignored`) returns `false` there, because the literal branch only
tests equality and the `p + "/"` directory prefix. -/
theorem c3_counterexample :
    matchPattern "a/node_modules/x" "node_modules" = false ∧
    isIgnored ["node_modules"] "a/node_modules/x" = false := by
  decide

/-- C3 (amended): the ignore matcher satisfies the spec's example
behaviours except the last one: `/build` ignores `build` and
`build/sub/file.txt` but not `other/build`; `*.log` ignores `a.log` and
`dir/b.log`; the unanchored literal `node_modules` ignores
`node_modules/x` but does **not** ignore `a/node_modules/x` (literal
patterns match only at the start of the relative path). -/
theorem c3_ignore_matcher_examples :
    isIgnored ["/build"] "build" = true ∧
    isIgnored ["/build"] "build/sub/file.txt" = true ∧
    isIgnored ["/build"] "other/build" = false ∧
    isIgnored ["*.log"] "a.log" = true ∧
    isIgnored ["*.log"] "dir/b.log" = true ∧
    isIgnored ["node_modules"] "node_modules/x" = true ∧
    isIgnored ["node_modules"] "a/node_modules/x" = false := by
  decide

/-- C4: merging the source `{a.txt ↦ "A", b.bin ↦ 0xFF}` over the
selection `{a.txt, b.bin}`: fetching `a.txt` yields `"A"`, fetching
`b.bin` fails `NotTextFile` (invalid UTF-8); the merged output — in
either map-traversal order — is exactly one `START FILE: a.txt` /
`END FILE: a.txt` block with body `A` and a single trailing blank line
after the END delimiter, with no block for `b.bin`; and the result
coincides with the plain concatenation of the per-file success blocks. -/
theorem c4_merge_round_trip :
    mergeFetch sfATxt = .inr "A" ∧
    mergeFetch sfBBin = .inl (.notTextFile "base/b.bin") ∧
    writeMerged mergeFetch [("a.txt", sfATxt), ("b.bin", sfBBin)]
      = "--- START FILE: a.txt ---\nA\n--- END FILE: a.txt ---\n\n" ∧
    writeMerged mergeFetch [("b.bin", sfBBin), ("a.txt", sfATxt)]
      = "--- START FILE: a.txt ---\nA\n--- END FILE: a.txt ---\n\n" ∧
    writeMerged mergeFetch [("a.txt", sfATxt), ("b.bin", sfBBin)]
      = concatAll (successBlocks mergeFetch [("a.txt", sfATxt), ("b.bin", sfBBin)]) := by
  decide

/-- C2 (counterexample): the claim says that after a reload the selected
file set equals exactly the fresh index's path set and the selected
extension set covers exactly its extensions plus `"*"`, with no stale
entry surviving.  Reloading the index `[a.txt]` over a prior state whose
selections hold the vanished path `gone.txt` and the vanished extension
group `zzz` keeps both stale entries: `init_values` only inserts into the
selection sets and never clears them. -/
theorem c2_counterexample :
    (reloadFilesImmediate (some [sfATxt]) stalePrior).loadedFiles = [sfATxt] ∧
    "gone.txt" ∈ (reloadFilesImmediate (some [sfATxt]) stalePrior).selectedFiles ∧
    "gone.txt" ∉ [sfATxt].map SourceFile.path ∧
    (reloadFilesImmediate (some [sfATxt]) stalePrior).selectedFiles ≠ {"a.txt"} ∧
    "zzz" ∈ (reloadFilesImmediate (some [sfATxt]) stalePrior).selectedExtensions ∧
    "zzz" ∉ (reloadFilesImmediate (some [sfATxt]) stalePrior).filterItems := by
  decide

/-- C2 (amended): when a reload completes, the loaded index is replaced
wholesale and the default selection is re-seeded *additively*: afterwards
the selected-file set holds exactly the former selection united with all
paths of the fresh index (so every current file is selected, but stale
entries for vanished paths survive), and the selected-extension set holds
exactly the former selection united with `"*"` and the fresh index's
derived extensions. -/
theorem c2_reload_reseeds_selection (idx : List SourceFile) (st : AppSel) :
    (reloadFilesImmediate (some idx) st).loadedFiles = idx ∧
    (∀ p, p ∈ (reloadFilesImmediate (some idx) st).selectedFiles ↔
      p ∈ st.selectedFiles ∨ p ∈ idx.map SourceFile.path) ∧
    (∀ x, x ∈ (reloadFilesImmediate (some idx) st).selectedExtensions ↔
      x ∈ st.selectedExtensions ∨ x = "*" ∨ ∃ f ∈ idx, uiExtOf f.path = x) := by
  refine ⟨rfl, ?_, ?_⟩
  · intro p
    simp only [reloadFilesImmediate, sourceFilesInitValues, filtersInitValues]
    rw [mem_foldl_insert_path, mem_foldl_insert_path]
    tauto
  · intro x
    simp only [reloadFilesImmediate, sourceFilesInitValues, filtersInitValues]
    rw [mem_foldl_insert_str]
    simp only [List.mem_cons, mem_sortedNub, List.mem_map]

/-- C5: the reload/merge intents are idempotent and cannot be set while
`processing`; while `processing` no new operation starts (strict
mutual-exclusion — at most one operation is in flight, so reload and
merge never run concurrently, and each step starts at most one
operation); and in the double-trigger scenario — `F1`, `F1` again while
still pending, tick (reload starts), `F1` while busy, completion, two
more ticks — exactly one reload executes before the controller is idle
again. -/
theorem c5_single_flight_controller :
    (∀ s : CtrlState, s.processing = false →
      ctrlStep (ctrlStep s .keyF1) .keyF1 = ctrlStep s .keyF1 ∧
      ctrlStep (ctrlStep s .keyF2) .keyF2 = ctrlStep s .keyF2) ∧
    (∀ s : CtrlState, s.processing = true →
      ctrlStep s .keyF1 = s ∧ ctrlStep s .keyF2 = s) ∧
    (∀ (s : CtrlState) (e : CtrlEvent), s.processing = true →
      (ctrlStep s e).execLog = s.execLog) ∧
    (∀ (s : CtrlState) (e : CtrlEvent),
      (ctrlStep s e).execLog = s.execLog ∨
      ∃ op, (ctrlStep s e).execLog = s.execLog ++ [op]) ∧
    ctrlRun idleCtrl [.keyF1, .keyF1, .tick, .keyF1, .opDone, .tick, .tick]
      = { reloadNeeded := false, mergeNeeded := false, processing := false,
          running := none, execLog := [.reload] } := by
  refine ⟨?_, ?_, ?_, ?_, by decide⟩
  · intro s h
    constructor <;> simp [ctrlStep, h]
  · intro s h
    constructor <;> simp [ctrlStep, h]
  · intro s e h
    cases e <;> simp [ctrlStep, h]
  · intro s e
    cases e with
    | keyF1 => by_cases h : s.processing <;> simp [ctrlStep, h]
    | keyF2 => by_cases h : s.processing <;> simp [ctrlStep, h]
    | opDone => by_cases h : s.processing <;> simp [ctrlStep, h]
    | tick =>
      by_cases h : s.processing
      · simp [ctrlStep, h]
      · by_cases hr : s.reloadNeeded
        · right; exact ⟨.reload, by simp [ctrlStep, h, hr]⟩
        · by_cases hm : s.mergeNeeded
          · right; exact ⟨.merge, by simp [ctrlStep, h, hr, hm]⟩
          · left; simp [ctrlStep, h, hr, hm]

/-- C5 (witness): the hypothesis-bearing conjuncts instantiated — the
idempotence pair at the idle state, and the busy-state no-op and
log-freeze facts at a state that is mid-reload. -/
theorem c5_single_flight_controller_witness :
    (ctrlStep (ctrlStep idleCtrl .keyF1) .keyF1 = ctrlStep idleCtrl .keyF1) ∧
    (ctrlStep ⟨false, false, true, some .reload, [.reload]⟩ .keyF1
      = ⟨false, false, true, some .reload, [.reload]⟩) ∧
    ((ctrlStep ⟨false, false, true, some .reload, [.reload]⟩ .tick).execLog = [.reload]) := by
  have h1 := (c5_single_flight_controller.1 idleCtrl rfl).1
  have h2 := (c5_single_flight_controller.2.1 ⟨false, false, true, some .reload, [.reload]⟩ rfl).1
  have h3 := c5_single_flight_controller.2.2.1 ⟨false, false, true, some .reload, [.reload]⟩ .tick rfl
  exact ⟨h1, h2, h3⟩

/-- C9: content-fetch rejects a `SourceFile` whose origin variant does
not match the backend: for every disk state, `FileSystemSource::
get_file_content` on a non-filesystem origin returns `InvalidSource`
having performed no I/O action, and for every HTTP responder and
configured subpath, `GitHubSource::get_file_content` on a non-GitHub
origin returns `InvalidSource` having performed no I/O action. -/
theorem c9_origin_mismatch_rejected :
    (∀ (disk : List (String × List Nat)) (sf : SourceFile),
      (∀ bp, sf.sourceType ≠ SourceType.fileSystem bp) →
      fsGetFileContent disk sf = (.inl .invalidSource, [])) ∧
    (∀ (http : String → HttpOutcome) (subpath : Option String) (sf : SourceFile),
      (∀ o r b, sf.sourceType ≠ SourceType.gitHub o r b) →
      ghGetFileContent http subpath sf = (.inl .invalidSource, [])) := by
  constructor
  · intro disk sf h
    obtain ⟨p, st⟩ := sf
    cases st with
    | fileSystem bp => exact absurd rfl (h bp)
    | gitHub o r b => rfl
  · intro http subpath sf h
    obtain ⟨p, st⟩ := sf
    cases st with
    | fileSystem bp => rfl
    | gitHub o r b => exact absurd rfl (h o r b)

/-- C9 (witness): a GitHub-origin file against the filesystem backend
and a filesystem-origin file against the GitHub backend, each rejected
with `InvalidSource` and an empty I/O log. -/
theorem c9_origin_mismatch_rejected_witness :
    fsGetFileContent mergeDisk ⟨"x", .gitHub "o" "r" "main"⟩ = (.inl .invalidSource, []) ∧
    ghGetFileContent (fun _ => .netFail "down") none ⟨"x", .fileSystem "base"⟩
      = (.inl .invalidSource, []) := by
  have h1 := c9_origin_mismatch_rejected.1 mergeDisk ⟨"x", .gitHub "o" "r" "main"⟩
    (fun bp h => by cases h)
  have h2 := c9_origin_mismatch_rejected.2 (fun _ => .netFail "down") none
    ⟨"x", .fileSystem "base"⟩ (fun o r b h => by cases h)
  exact ⟨h1, h2⟩

/-- C6: the classifier's exact precedence — a binary override forces
"not text" (even when the text override also holds, since the binary set
is consulted first and unconditionally), otherwise a text override
forces "text" even for built-in-binary extensions, otherwise the result
is "text" iff the extension is not in the built-in table (witnessed on
the whole table for the default config); extension-less files are always
classified text; and classification is case-insensitive in the file's
extension, which is lowercased by `get_extension` before lookup. -/
theorem c6_classifier_precedence :
    (∀ (cfg : FilterConfig) (e : String),
      cfg.additionalBinaryExtensions.contains e = true →
      cfg.isTextExtension e = false) ∧
    (∀ (cfg : FilterConfig) (e : String),
      cfg.additionalBinaryExtensions.contains e = false →
      cfg.additionalTextExtensions.contains e = true →
      cfg.isTextExtension e = true) ∧
    (∀ (cfg : FilterConfig) (e : String),
      cfg.additionalBinaryExtensions.contains e = false →
      cfg.additionalTextExtensions.contains e = false →
      cfg.isTextExtension e = !(nonTextExtensions.contains e)) ∧
    (∀ e ∈ nonTextExtensions, FilterConfig.new.isTextExtension e = false) ∧
    (∀ (cfg : FilterConfig) (p : String),
      getExtension p = none → isTextFile cfg p = true) ∧
    (∀ cfg : FilterConfig, isTextFile cfg "photo.JPG" = isTextFile cfg "photo.jpg") := by
  refine ⟨?_, ?_, ?_, ?_, ?_, ?_⟩
  · intro cfg e h
    simp at h
    simp [FilterConfig.isTextExtension, h]
  · intro cfg e h1 h2
    simp at h1 h2
    simp [FilterConfig.isTextExtension, h1, h2]
  · intro cfg e h1 h2
    simp at h1 h2
    simp [FilterConfig.isTextExtension, h1, h2]
  · intro e he
    simp [FilterConfig.isTextExtension, FilterConfig.new, he]
  · intro cfg p h
    simp [isTextFile, h]
  · intro cfg
    have h1 : getExtension "photo.JPG" = some "jpg" := by decide
    have h2 : getExtension "photo.jpg" = some "jpg" := by decide
    simp [isTextFile, h1, h2]

/-- C6 (witness): the precedence conjuncts instantiated — `sql` in both
override sets is binary; `exe` in the text override alone is text
despite the built-in table; `rs` falls through to the table; `pdf` is in
the table and binary by default; `dir/Makefile` has no extension and is
text; the `jpg` binary override applies to `photo.JPG` and `photo.jpg`
alike. -/
theorem c6_classifier_precedence_witness :
    (FilterConfig.mk ["sql"] ["sql"]).isTextExtension "sql" = false ∧
    (FilterConfig.mk ["exe"] []).isTextExtension "exe" = true ∧
    FilterConfig.new.isTextExtension "rs" = !(nonTextExtensions.contains "rs") ∧
    FilterConfig.new.isTextExtension "pdf" = false ∧
    isTextFile FilterConfig.new "dir/Makefile" = true ∧
    isTextFile (FilterConfig.mk [] ["jpg"]) "photo.JPG"
      = isTextFile (FilterConfig.mk [] ["jpg"]) "photo.jpg" := by
  refine ⟨c6_classifier_precedence.1 _ "sql" (by decide),
          (c6_classifier_precedence.2.1 _ "exe" (by decide) (by decide)),
          c6_classifier_precedence.2.2.1 _ "rs" (by decide) (by decide),
          c6_classifier_precedence.2.2.2.1 "pdf" (by decide),
          c6_classifier_precedence.2.2.2.2.1 _ "dir/Makefile" (by decide),
          c6_classifier_precedence.2.2.2.2.2 _⟩

/-- C7: `parse_url` accepts the two spec examples (default branch `main`,
`tree`-branch with subpath), strips trailing `.git` from the repo
segment (concretely and as a general law of the trimming function), and
returns `InvalidSource` for every parsed URL whose scheme is not
`https`, whose host is not `github.com`, or which has fewer than two
path segments — concretely for a `gitlab.com` host, an `http` scheme and
a path-less URL. -/
theorem c7_parse_github_url :
    parseGithubUrl "https://github.com/o/r" = .inr ("o", "r", "main", none) ∧
    parseGithubUrl "https://github.com/o/r/tree/dev/sub/dir"
      = .inr ("o", "r", "dev", some "sub/dir") ∧
    parseGithubUrl "https://github.com/o/r.git" = .inr ("o", "r", "main", none) ∧
    (∀ r : String, trimGitSuffix (r ++ ".git") = trimGitSuffix r) ∧
    (∀ u : UrlParts,
      u.scheme ≠ "https" ∨ u.host ≠ some "github.com" ∨ u.pathSegs = none ∨
        (∃ segs, u.pathSegs = some segs ∧ segs.length < 2) →
      parseGithubUrlParts u = .inl .invalidSource) ∧
    parseGithubUrl "https://gitlab.com/o/r" = .inl .invalidSource ∧
    parseGithubUrl "http://github.com/o/r" = .inl .invalidSource ∧
    parseGithubUrl "https://github.com" = .inl .invalidSource := by
  refine ⟨by decide, by decide, by decide, ?_, ?_, by decide, by decide, by decide⟩
  · intro r
    unfold trimGitSuffix
    have h : (r ++ ".git").data.reverse = 't' :: 'i' :: 'g' :: '.' :: r.data.reverse := by
      rw [String.data_append]
      simp [show (".git").data = ['.', 'g', 'i', 't'] from rfl]
    rw [h]
    rfl
  · intro u h
    obtain ⟨sch, host, psegs⟩ := u
    simp only [parseGithubUrlParts]
    rcases h with h | h | h | ⟨segs, hs, hlen⟩
    · rw [if_pos (Or.inl h)]
    · rw [if_pos (Or.inr h)]
    · by_cases hsc : sch ≠ "https" ∨ host ≠ some "github.com"
      · rw [if_pos hsc]
      · rw [if_neg hsc]
        simp only at h
        subst h
        rfl
    · by_cases hsc : sch ≠ "https" ∨ host ≠ some "github.com"
      · rw [if_pos hsc]
      · rw [if_neg hsc]
        simp only at hs
        subst hs
        simp [hlen]

/-- C7 (witness): the `.git`-stripping law and the failure rule
instantiated — the repo segment `repo.git`, an `http`-scheme URL, and a
one-segment path. -/
theorem c7_parse_github_url_witness :
    trimGitSuffix ("repo" ++ ".git") = trimGitSuffix "repo" ∧
    parseGithubUrlParts ⟨"http", some "github.com", some ["o", "r"]⟩
      = .inl .invalidSource ∧
    parseGithubUrlParts ⟨"https", some "github.com", some ["o"]⟩
      = .inl .invalidSource := by
  refine ⟨c7_parse_github_url.2.2.2.1 "repo",
          c7_parse_github_url.2.2.2.2.1 _ (Or.inl (by decide)),
          c7_parse_github_url.2.2.2.2.1 _
            (Or.inr (Or.inr (Or.inr ⟨["o"], rfl, by decide⟩)))⟩

/-- C10: the selection layer derives a file's grouping "extension" as
the substring after the last `.` of the *full relative path* with no
lowercasing (`path.split('.').last()`): the filters panel's item list is
exactly `"*"` plus these derived strings; a path containing no `.`
contributes the entire path (proved in general, and concretely for
`dir/Makefile`, for which the classifier's `get_extension` instead
returns `none`); and unlike `get_extension`, which lowercases
(`a.TXT ↦ txt`), the derived extension keeps its case (`a.TXT ↦ TXT`). -/
theorem c10_ui_extension_derivation :
    (∀ (files : List SourceFile) (st : AppSel) (x : String),
      x ∈ (filtersInitValues files st).filterItems ↔
        x = "*" ∨ ∃ f ∈ files, uiExtOf f.path = x) ∧
    (∀ p : String, (∀ a ∈ p.data, a ≠ '.') → uiExtOf p = p) ∧
    (uiExtOf "dir/Makefile" = "dir/Makefile" ∧ getExtension "dir/Makefile" = none) ∧
    (uiExtOf "a.TXT" = "TXT" ∧ getExtension "a.TXT" = some "txt") := by
  refine ⟨?_, ?_, by decide, by decide⟩
  · intro files st x
    simp only [filtersInitValues]
    simp [List.mem_cons, mem_sortedNub, List.mem_map]
  · intro p h
    unfold uiExtOf strSplit
    rw [splitCh_of_not_mem '.' p.data h]
    rfl

/-- C10 (witness): the no-dot law instantiated at `dir/Makefile`. -/
theorem c10_ui_extension_derivation_witness :
    uiExtOf "dir/Makefile" = "dir/Makefile" :=
  c10_ui_extension_derivation.2.1 "dir/Makefile" (by decide)

/-- C8: for every ignore ruleset, filter configuration and directory
tree (whose entry names, as for any real directory, contain no path
separator), every relative path emitted by a successful `collect_files`
traversal from the root has only clean components: no `/`-separated
component starts with `.` or ends with `~`.  Entries with such names —
files or directories at any depth — are skipped before emission and
before recursion. -/
theorem c8_index_has_no_hidden_components (rules : List String) (cfg : FilterConfig)
    (entries : List (String × FsNode)) (hn : noSlashNames entries = true) :
    ∀ p ∈ collectFiles rules cfg "" entries,
      ∀ comp ∈ splitCh '/' p.data, compOk comp = true :=
  collectFiles_comps_clean rules cfg "" entries hn (Or.inl rfl)

/-- C8 (witness): the theorem applied to the demo tree, whose traversal
concretely yields `["src/main.rs", "README"]` — skipping the hidden file
and directory, the backup file and the binary `b.png` — and every
component of those paths is clean. -/
theorem c8_index_has_no_hidden_components_witness :
    noSlashNames demoTree = true ∧
    collectFiles [] FilterConfig.new "" demoTree = ["src/main.rs", "README"] ∧
    (∀ p ∈ collectFiles [] FilterConfig.new "" demoTree,
      ∀ comp ∈ splitCh '/' p.data, compOk comp = true) := by
  have hn : noSlashNames demoTree = true := by
    simp only [demoTree, noSlashNames_cons, noSlashNames_nil]
    decide
  refine ⟨hn, ?_, c8_index_has_no_hidden_components [] FilterConfig.new demoTree hn⟩
  simp +decide only [demoTree, collectFiles_nil, collectFiles_skip_dot,
    collectFiles_skip_tilde, collectFiles_skip_ignored, collectFiles_skip_ext,
    collectFiles_emit_file, collectFiles_enter_dir]

end Anvil
